import Mathlib

/-!
Verification of the JWT claim-set codec (`src/claims.rs`).

A shallow embedding of the claim-set model of the `rust-jwt` crate.

The file embeds the code of `src/claims.rs`: the `Registered` struct of the
seven optional standardized claims, the `Claims` aggregate (registered struct
plus a `BTreeMap<String, Json>` of private claims), and the two `Component`
operations `from_base64` / `to_base64`.

The collaborators that `claims.rs` consumes but does not define — the
structured-value tree (`rustc_serialize::json::Json`), the base64 and UTF-8
layers, the error taxonomy of `error.rs`, and the derive-generated
(de)serializers of `Registered` — are not part of the visible source and are
modelled from the spec at their interface boundary (spec §4.1, §6, §7).

`BTreeMap<String, Json>` is modelled as an association list whose keys are
strictly increasing in the lexicographic order on the underlying character
data, the order used by Rust's `Ord for String` on these ASCII keys.
-/

namespace Jwt

/-- Modelled from the spec: the generic structured-value tree abstraction
(a JSON-like document: objects, arrays, strings, numbers, booleans, null,
spec §6 and glossary).  JSON objects appear as key-ordered association lists,
mirroring `rustc_serialize`'s `Json::Object(BTreeMap<String, Json>)`; JSON
numbers appear as rationals, so that negative, fractional and out-of-range
numeric claims are representable. -/
inductive Json : Type where
  | null : Json
  | boolean : Bool → Json
  | num : ℚ → Json
  | str : String → Json
  | arr : List Json → Json
  | obj : List (String × Json) → Json

/-- Modelled from the spec: the error taxonomy of `error.rs` (spec §7):
`EncodingError` (bad base64 or bad UTF-8), `FormatError` (bad JSON or
non-object top level), `DecodeError` (reserved key of the wrong type),
`SerializationError` (encoder-internal). -/
inductive Error : Type where
  | encoding : Error
  | format : Error
  | decode : Error
  | serialization : Error
deriving DecidableEq

/-- Modelled from the spec: the outer textual pipeline (base64 text → bytes →
UTF-8 string → parsed JSON, spec §4.2 steps 1–3), represented by the
classification of an input text.  `json j` stands for a text whose base64
payload is valid UTF-8 and parses to the tree `j`; the other constructors
stand for the three ways the outer layers can reject an input. -/
inductive Text : Type where
  | invalidBase64 : Text
  | invalidUtf8 : Text
  | invalidJson : Text
  | json : Json → Text

/-- Strict lexicographic order on strings via their character data; the order
of Rust's `Ord for String` restricted to the ASCII keys that occur here,
used to model `BTreeMap`'s key ordering. -/
def strLt (a b : String) : Bool := decide (a.data < b.data)

/-- First-match lookup in an association list, i.e. `BTreeMap::get`. -/
def lookupKV (k : String) : List (String × Json) → Option Json
  | [] => none
  | (k', v) :: rest => if k = k' then some v else lookupKV k rest

/-- Ordered insert with overwrite, i.e. `BTreeMap::insert` on the sorted
association-list representation. -/
def insertKV (k : String) (v : Json) : List (String × Json) → List (String × Json)
  | [] => [(k, v)]
  | (k', v') :: rest =>
    if strLt k k' then (k, v) :: (k', v') :: rest
    else if k = k' then (k, v) :: rest
    else (k', v') :: insertKV k v rest

/-- `BTreeMap::extend`: insert every pair of `p` into `t`, entries of `p`
overwriting on key collision. -/
def extendKV (t p : List (String × Json)) : List (String × Json) :=
  p.foldl (fun acc kv => insertKV kv.1 kv.2 acc) t

/-- The well-formedness invariant of the `BTreeMap` representation: keys
strictly increasing (stated as "each key is below every later key", which for
the transitive order `strLt` is the same as adjacent-pair sortedness). -/
def sortedKeys : List (String × Json) → Bool
  | [] => true
  | (k, _) :: rest => (rest.all fun kv => strLt k kv.1) && sortedKeys rest

/-- The `FIELDS` constant of `Claims::from_base64`: the seven reserved
claim names. -/
def FIELDS : List String := ["iss", "sub", "aud", "exp", "nbf", "iat", "jti"]

/-- The partition predicate of `Claims::from_base64`:
`FIELDS.iter().any(|f| f == key)`. -/
def reservedKey (k : String) : Bool := FIELDS.any fun f => f == k

/-- The `Registered` struct: seven optional standardized claims.  Rust's
`u64` fields are modelled as `Nat`; a `u64` value is below `2^64`, which is
carried as a separate validity predicate (`Registered.valid`). -/
structure Registered : Type where
  iss : Option String
  sub : Option String
  aud : Option String
  exp : Option Nat
  nbf : Option Nat
  iat : Option Nat
  jti : Option String
deriving DecidableEq

/-- `Default::default()` for `Registered`: every field absent. -/
def Registered.default : Registered := ⟨none, none, none, none, none, none, none⟩

/-- Modelled from the spec: coercion of a JSON number to an unsigned 64-bit
integer, failing with `DecodeError` when the value is negative, fractional or
out of `u64` range (spec §6). -/
def u64OfRat (q : ℚ) : Except Error Nat :=
  if q.den = 1 ∧ 0 ≤ q.num ∧ q.num < 2 ^ 64 then .ok q.num.toNat else .error .decode

/-- Modelled from the spec: decoding one optional string field of
`Registered` from the structured-value tree (spec §4.1): an absent key (or a
JSON null) is an absent field, a JSON string is the value, and any other
shape fails with `DecodeError`. -/
def decodeOptStr (tree : List (String × Json)) (k : String) :
    Except Error (Option String) :=
  match lookupKV k tree with
  | none => .ok none
  | some .null => .ok none
  | some (.str s) => .ok (some s)
  | some _ => .error .decode

/-- Modelled from the spec: decoding one optional `u64` field of `Registered`
(spec §4.1, §6): an absent key (or a JSON null) is an absent field, a JSON
number is coerced by `u64OfRat`, and any other shape fails with
`DecodeError`. -/
def decodeOptU64 (tree : List (String × Json)) (k : String) :
    Except Error (Option Nat) :=
  match lookupKV k tree with
  | none => .ok none
  | some .null => .ok none
  | some (.num q) => (u64OfRat q).map some
  | some _ => .error .decode

/-- Modelled from the spec: `RegisteredClaims.decode` (spec §4.1), the
derive-generated `Decodable` impl of `Registered`: each of the seven fields
is decoded from the tree independently, in declaration order, and the first
type mismatch aborts the whole decode. -/
def Registered.decode (tree : List (String × Json)) : Except Error Registered :=
  (decodeOptStr tree "iss").bind fun iss =>
  (decodeOptStr tree "sub").bind fun sub =>
  (decodeOptStr tree "aud").bind fun aud =>
  (decodeOptU64 tree "exp").bind fun exp =>
  (decodeOptU64 tree "nbf").bind fun nbf =>
  (decodeOptU64 tree "iat").bind fun iat =>
  (decodeOptStr tree "jti").bind fun jti =>
  .ok ⟨iss, sub, aud, exp, nbf, iat, jti⟩

/-- The singleton or empty object fragment contributed by one optional
field. -/
def optEntry (k : String) (o : Option Json) : List (String × Json) :=
  match o with
  | none => []
  | some j => [(k, j)]

/-- Modelled from the spec: `RegisteredClaims.encode` (spec §4.1) followed by
re-parsing into the key-ordered map, as `Claims::to_base64` does with
`json::encode` / `Json::from_str`: the tree contains exactly the keys of the
present fields (absent fields are omitted, never emitted as null), in
`BTreeMap` key order. -/
def Registered.encode (r : Registered) : List (String × Json) :=
  optEntry "aud" (r.aud.map Json.str) ++
  optEntry "exp" (r.exp.map fun n => Json.num (n : ℚ)) ++
  optEntry "iat" (r.iat.map fun n => Json.num (n : ℚ)) ++
  optEntry "iss" (r.iss.map Json.str) ++
  optEntry "jti" (r.jti.map Json.str) ++
  optEntry "nbf" (r.nbf.map fun n => Json.num (n : ℚ)) ++
  optEntry "sub" (r.sub.map Json.str)

/-- The `Claims` struct: a `Registered` plus the private
`BTreeMap<String, Json>`. -/
structure Claims : Type where
  reg : Registered
  private' : List (String × Json)

/-- `Claims::new`: wraps a `Registered` with an empty private map. -/
def Claims.new (reg : Registered) : Claims :=
  { reg := reg, private' := [] }

/-- `Claims::from_base64`: base64 and UTF-8 decode (`EncodingError` on
failure), JSON parse (`FormatError` on failure), reject a non-object top
level (`FormatError`), partition the object's pairs by membership of the key
in `FIELDS`, decode the reserved group as `Registered` (propagating
`DecodeError`), and keep the rest as the private map. -/
def Claims.from_base64 (raw : Text) : Except Error Claims :=
  match raw with
  | .invalidBase64 => .error .encoding
  | .invalidUtf8 => .error .encoding
  | .invalidJson => .error .format
  | .json j =>
    match j with
    | .obj tree =>
      let p := tree.partition fun kv => reservedKey kv.1
      match Registered.decode p.1 with
      | .ok reg => .ok { reg := reg, private' := p.2 }
      | .error e => .error e
    | _ => .error .format

/-- The merged JSON object emitted by `Claims::to_base64`: the
registered-derived tree with the private map's entries merged in by
`BTreeMap::extend`. -/
def mergedTree (c : Claims) : List (String × Json) :=
  extendKV (Registered.encode c.reg) c.private'

/-- `Claims::to_base64`: serialize the registered struct to a tree, extend it
with the private map, serialize and base64-encode.  The serialize / re-parse
round trip through text is the identity on well-formed trees (spec §4.2
step 3: serialization "should not occur" to fail for well-formed trees), so
the emitted text is represented by the merged tree itself. -/
def Claims.to_base64 (c : Claims) : Except Error Text :=
  .ok (.json (.obj (mergedTree c)))

/-- Validity of the `u64`-typed fields: a Rust `u64` is below `2^64`. -/
def Registered.valid (r : Registered) : Bool :=
  r.exp.all (fun n => decide (n < 2 ^ 64)) &&
  r.nbf.all (fun n => decide (n < 2 ^ 64)) &&
  r.iat.all (fun n => decide (n < 2 ^ 64))

/-- A valid `ClaimSet` value: the `u64` fields are in range, and the private
map is a well-formed `BTreeMap` whose keys avoid the reserved set (the
invariant of spec §3, maintained by construction and by decoding). -/
def Claims.valid (c : Claims) : Bool :=
  c.reg.valid && sortedKeys c.private' &&
  c.private'.all fun kv => !reservedKey kv.1

end Jwt

namespace Jwt

/-! Order lemmas for the key comparison. -/

theorem strLt_irrefl (a : String) : strLt a a = false := by
  simp [strLt]

theorem strLt_asymm {a b : String} (h : strLt a b = true) : strLt b a = false := by
  simp only [strLt, decide_eq_true_eq, decide_eq_false_iff_not] at *
  exact lt_asymm h

theorem strLt_trans {a b c : String} (h₁ : strLt a b = true) (h₂ : strLt b c = true) :
    strLt a c = true := by
  simp only [strLt, decide_eq_true_eq] at *
  exact lt_trans h₁ h₂

theorem strLt_eq_of_false {a b : String} (h₁ : strLt a b = false) (h₂ : strLt b a = false) :
    a = b := by
  simp only [strLt, decide_eq_false_iff_not] at *
  rcases lt_trichotomy a.data b.data with h | h | h
  · exact absurd h h₁
  · exact String.ext h
  · exact absurd h h₂

theorem strLt_ne {a b : String} (h : strLt a b = true) : a ≠ b := by
  rintro rfl
  simp [strLt_irrefl] at h

end Jwt

namespace Jwt

/-! Association-list lemmas for the BTreeMap model. -/

theorem extendKV_nil (t : List (String × Json)) : extendKV t [] = t := rfl

theorem extendKV_cons (t : List (String × Json)) (k : String) (v : Json)
    (p : List (String × Json)) :
    extendKV t ((k, v) :: p) = extendKV (insertKV k v t) p := rfl

theorem mem_insertKV (kv : String × Json) (k : String) (v : Json)
    (t : List (String × Json)) : kv ∈ insertKV k v t → kv = (k, v) ∨ kv ∈ t := by
  induction t with
  | nil => intro h; simpa [insertKV] using h
  | cons hd tl ih =>
    intro h
    rw [insertKV] at h
    split at h
    · simp only [List.mem_cons] at h ⊢
      tauto
    · split at h
      · simp only [List.mem_cons] at h ⊢
        tauto
      · simp only [List.mem_cons] at h ⊢
        rcases h with h | h
        · tauto
        · rcases ih h with h' | h'
          · exact .inl h'
          · exact .inr (.inr h')

theorem lookup_insert_self (k : String) (v : Json) (t : List (String × Json)) :
    lookupKV k (insertKV k v t) = some v := by
  induction t with
  | nil => simp [insertKV, lookupKV]
  | cons hd tl ih =>
    rw [insertKV]
    split
    · simp [lookupKV]
    · split
      · simp [lookupKV]
      · rename_i h₁ h₂
        rw [lookupKV, if_neg h₂]
        exact ih

theorem lookup_insert_ne {k' k : String} (v : Json) (t : List (String × Json))
    (h : k' ≠ k) : lookupKV k' (insertKV k v t) = lookupKV k' t := by
  induction t with
  | nil => simp [insertKV, lookupKV, h]
  | cons hd tl ih =>
    rw [insertKV]
    split
    · simp [lookupKV, h]
    · split
      · rename_i h₁ h₂
        subst h₂
        simp [lookupKV, h]
      · rw [lookupKV, lookupKV]
        split
        · rfl
        · exact ih

theorem sortedKeys_insert {t : List (String × Json)} (k : String) (v : Json)
    (h : sortedKeys t = true) : sortedKeys (insertKV k v t) = true := by
  induction t with
  | nil => simp [insertKV, sortedKeys]
  | cons hd tl ih =>
    rw [sortedKeys, Bool.and_eq_true, List.all_eq_true] at h
    obtain ⟨hall, hsorted⟩ := h
    rw [insertKV]
    split
    · rename_i hlt
      rw [sortedKeys, Bool.and_eq_true, List.all_eq_true]
      refine ⟨?_, by rw [sortedKeys, Bool.and_eq_true, List.all_eq_true]; exact ⟨hall, hsorted⟩⟩
      intro kv hkv
      rcases List.mem_cons.1 hkv with h' | h'
      · subst h'; exact hlt
      · exact strLt_trans hlt (hall kv h')
    · split
      · rename_i hlt heq
        subst heq
        rw [sortedKeys, Bool.and_eq_true, List.all_eq_true]
        exact ⟨hall, hsorted⟩
      · rename_i hlt heq
        rw [Bool.not_eq_true] at hlt
        rw [sortedKeys, Bool.and_eq_true, List.all_eq_true]
        refine ⟨?_, ih hsorted⟩
        intro kv hkv
        rcases mem_insertKV kv k v tl hkv with h' | h'
        · subst h'
          rcases Bool.eq_false_or_eq_true (strLt hd.1 k) with ht | hf
          · exact ht
          · exact absurd (strLt_eq_of_false hf hlt).symm heq
        · exact hall kv h'

theorem lookup_eq_none_of_ne {k : String} {t : List (String × Json)}
    (h : ∀ kv ∈ t, k ≠ kv.1) : lookupKV k t = none := by
  induction t with
  | nil => rfl
  | cons hd tl ih =>
    rw [lookupKV, if_neg (h hd (List.mem_cons_self hd tl))]
    exact ih fun kv hkv => h kv (List.mem_cons_of_mem _ hkv)

theorem lookup_extend {p : List (String × Json)} (t : List (String × Json))
    (hp : sortedKeys p = true) (k : String) :
    lookupKV k (extendKV t p) = (lookupKV k p).or (lookupKV k t) := by
  induction p generalizing t with
  | nil => simp [extendKV_nil, lookupKV, Option.or]
  | cons hd tl ih =>
    rw [sortedKeys, Bool.and_eq_true, List.all_eq_true] at hp
    obtain ⟨hall, hsorted⟩ := hp
    obtain ⟨k₀, v₀⟩ := hd
    rw [extendKV_cons, ih _ hsorted, lookupKV]
    by_cases hk : k = k₀
    · subst hk
      rw [if_pos rfl, lookup_eq_none_of_ne fun kv hkv => strLt_ne (hall kv hkv),
        lookup_insert_self]
      rfl
    · rw [if_neg hk, lookup_insert_ne _ _ hk]

end Jwt

namespace Jwt

theorem insert_eq_cons_of_lt {k : String} {t : List (String × Json)} (v : Json)
    (h : ∀ kv ∈ t, strLt k kv.1 = true) : insertKV k v t = (k, v) :: t := by
  cases t with
  | nil => rfl
  | cons hd tl =>
    rw [insertKV, if_pos (h hd (List.mem_cons_self hd tl))]

theorem insert_eq_append_of_gt {k : String} {t : List (String × Json)} (v : Json)
    (h : ∀ kv ∈ t, strLt kv.1 k = true) : insertKV k v t = t ++ [(k, v)] := by
  induction t with
  | nil => rfl
  | cons hd tl ih =>
    have h₁ := h hd (List.mem_cons_self hd tl)
    have hne : ¬ k = hd.1 := fun he => strLt_ne h₁ he.symm
    have hnlt : ¬ strLt k hd.1 = true := by
      rw [strLt_asymm h₁]
      exact Bool.false_ne_true
    rw [insertKV, if_neg hnlt, if_neg hne,
      ih fun kv hkv => h kv (List.mem_cons_of_mem _ hkv)]
    rfl

theorem extend_eq_append {p : List (String × Json)} (t : List (String × Json))
    (h : ∀ kv ∈ t, ∀ kv' ∈ p, strLt kv.1 kv'.1 = true) (hp : sortedKeys p = true) :
    extendKV t p = t ++ p := by
  induction p generalizing t with
  | nil => simp [extendKV_nil]
  | cons hd tl ih =>
    rw [sortedKeys, Bool.and_eq_true, List.all_eq_true] at hp
    obtain ⟨hall, hsorted⟩ := hp
    obtain ⟨k₀, v₀⟩ := hd
    have hstep : ∀ kv ∈ t ++ [(k₀, v₀)], ∀ kv' ∈ tl, strLt kv.1 kv'.1 = true := by
      intro kv hkv kv' hkv'
      rcases List.mem_append.1 hkv with h' | h'
      · exact h kv h' kv' (List.mem_cons_of_mem _ hkv')
      · have : kv = (k₀, v₀) := by simpa using h'
        rw [this]
        exact hall kv' hkv'
    rw [extendKV_cons,
      insert_eq_append_of_gt v₀ fun kv hkv => h kv hkv _ (List.mem_cons_self _ _),
      ih _ hstep hsorted, List.append_assoc]
    rfl

theorem extend_nil_left {p : List (String × Json)} (hp : sortedKeys p = true) :
    extendKV [] p = p := by
  have := extend_eq_append ([] : List (String × Json)) (by simp) hp
  simpa using this

theorem filter_insert_neg {pred : String → Bool} {k : String} (v : Json)
    (t : List (String × Json)) (hk : pred k = false) :
    (insertKV k v t).filter (fun kv => pred kv.1) = t.filter fun kv => pred kv.1 := by
  induction t with
  | nil => simp [insertKV, hk]
  | cons hd tl ih =>
    obtain ⟨k', v'⟩ := hd
    rw [insertKV]
    split
    · rw [List.filter_cons, List.filter_cons]
      simp only [hk]
      rfl
    · split
      · rename_i h₁ h₂
        subst h₂
        rw [List.filter_cons, List.filter_cons]
        simp [hk]
      · rw [List.filter_cons, List.filter_cons]
        split
        · rw [ih]
        · exact ih

theorem filter_insert_pos {pred : String → Bool} {k : String} (v : Json)
    {t : List (String × Json)} (hk : pred k = true) (ht : sortedKeys t = true) :
    (insertKV k v t).filter (fun kv => pred kv.1) =
      insertKV k v (t.filter fun kv => pred kv.1) := by
  induction t with
  | nil => simp [insertKV, hk]
  | cons hd tl ih =>
    obtain ⟨k', v'⟩ := hd
    rw [sortedKeys, Bool.and_eq_true, List.all_eq_true] at ht
    obtain ⟨hall, hsorted⟩ := ht
    rw [insertKV]
    split
    · rename_i hlt
      have hlo : ∀ kv ∈ List.filter (fun kv => pred kv.1) ((k', v') :: tl),
          strLt k kv.1 = true := by
        intro kv hkv
        have hmem := List.mem_of_mem_filter hkv
        rcases List.mem_cons.1 hmem with h' | h'
        · rw [h']
          exact hlt
        · exact strLt_trans hlt (hall kv h')
      rw [insert_eq_cons_of_lt v hlo, List.filter_cons, if_pos hk]
    · split
      · rename_i h₁ h₂
        subst h₂
        rw [List.filter_cons, if_pos hk, List.filter_cons, if_pos hk, insertKV,
          if_neg (by rw [strLt_irrefl]; exact Bool.false_ne_true), if_pos rfl]
      · rename_i h₁ h₂
        rw [List.filter_cons, List.filter_cons]
        split
        · rw [ih hsorted, insertKV, if_neg h₁, if_neg h₂]
        · exact ih hsorted

theorem filter_extend_neg {pred : String → Bool} {p : List (String × Json)}
    (t : List (String × Json)) (hp : ∀ kv ∈ p, pred kv.1 = false) :
    (extendKV t p).filter (fun kv => pred kv.1) = t.filter fun kv => pred kv.1 := by
  induction p generalizing t with
  | nil => rfl
  | cons hd tl ih =>
    obtain ⟨k₀, v₀⟩ := hd
    rw [extendKV_cons, ih _ fun kv hkv => hp kv (List.mem_cons_of_mem _ hkv),
      filter_insert_neg v₀ t (hp (k₀, v₀) (List.mem_cons_self _ _))]

theorem filter_extend_pos {f : String → Bool} {p : List (String × Json)}
    {t : List (String × Json)} (hp : ∀ kv ∈ p, f kv.1 = true)
    (ht : sortedKeys t = true) :
    (extendKV t p).filter (fun kv => f kv.1) =
      extendKV (t.filter fun kv => f kv.1) p := by
  induction p generalizing t with
  | nil => rfl
  | cons hd tl ih =>
    obtain ⟨k₀, v₀⟩ := hd
    rw [extendKV_cons,
      ih (fun kv hkv => hp kv (List.mem_cons_of_mem _ hkv)) (sortedKeys_insert k₀ v₀ ht),
      filter_insert_pos v₀ (hp (k₀, v₀) (List.mem_cons_self _ _)) ht, extendKV_cons]

end Jwt

namespace Jwt

/-! Lemmas about the registered-claims serializer. -/

theorem lookup_append (k : String) (l₁ l₂ : List (String × Json)) :
    lookupKV k (l₁ ++ l₂) = (lookupKV k l₁).or (lookupKV k l₂) := by
  induction l₁ with
  | nil => rfl
  | cons hd tl ih =>
    obtain ⟨k', v'⟩ := hd
    rw [List.cons_append, lookupKV, lookupKV]
    split
    · rfl
    · exact ih

theorem lookup_optEntry (k k' : String) (o : Option Json) :
    lookupKV k (optEntry k' o) = if k = k' then o else none := by
  cases o with
  | none => simp [optEntry, lookupKV]
  | some j => simp [optEntry, lookupKV]

theorem mem_optEntry {kv : String × Json} {k : String} {o : Option Json}
    (h : kv ∈ optEntry k o) : kv.1 = k := by
  cases o with
  | none => simp [optEntry] at h
  | some j =>
    simp only [optEntry, List.mem_singleton] at h
    rw [h]

theorem option_or_none (o : Option Json) : o.or none = o := by
  cases o <;> rfl

theorem lookup_encode_iss (r : Registered) :
    lookupKV "iss" (Registered.encode r) = r.iss.map Json.str := by
  simp [Registered.encode, lookup_append, lookup_optEntry, option_or_none]

theorem lookup_encode_sub (r : Registered) :
    lookupKV "sub" (Registered.encode r) = r.sub.map Json.str := by
  simp [Registered.encode, lookup_append, lookup_optEntry, option_or_none]

theorem lookup_encode_aud (r : Registered) :
    lookupKV "aud" (Registered.encode r) = r.aud.map Json.str := by
  simp [Registered.encode, lookup_append, lookup_optEntry, option_or_none]

theorem lookup_encode_exp (r : Registered) :
    lookupKV "exp" (Registered.encode r) = r.exp.map fun n => Json.num (n : ℚ) := by
  simp [Registered.encode, lookup_append, lookup_optEntry, option_or_none]

theorem lookup_encode_nbf (r : Registered) :
    lookupKV "nbf" (Registered.encode r) = r.nbf.map fun n => Json.num (n : ℚ) := by
  simp [Registered.encode, lookup_append, lookup_optEntry, option_or_none]

theorem lookup_encode_iat (r : Registered) :
    lookupKV "iat" (Registered.encode r) = r.iat.map fun n => Json.num (n : ℚ) := by
  simp [Registered.encode, lookup_append, lookup_optEntry, option_or_none]

theorem lookup_encode_jti (r : Registered) :
    lookupKV "jti" (Registered.encode r) = r.jti.map Json.str := by
  simp [Registered.encode, lookup_append, lookup_optEntry, option_or_none]

end Jwt

namespace Jwt

/-! Lemmas about the registered-claims decoder. -/

theorem decodeOptStr_of_map_str {t : List (String × Json)} {k : String}
    {o : Option String} (h : lookupKV k t = o.map Json.str) :
    decodeOptStr t k = .ok o := by
  cases o with
  | none => simp at h; simp [decodeOptStr, h]
  | some s => simp at h; simp [decodeOptStr, h]

theorem decodeOptU64_of_map_num {t : List (String × Json)} {k : String}
    {o : Option Nat} (hb : ∀ n, o = some n → n < 2 ^ 64)
    (h : lookupKV k t = o.map fun n => Json.num (n : ℚ)) :
    decodeOptU64 t k = .ok o := by
  cases o with
  | none => simp at h; simp [decodeOptU64, h]
  | some n =>
    simp at h
    have hn : (n : ℤ) < 2 ^ 64 := by exact_mod_cast hb n rfl
    simp [decodeOptU64, h, u64OfRat, Rat.den_natCast, Rat.num_natCast, hn,
      Int.toNat_natCast]
    rw [if_pos (by exact_mod_cast hb n rfl)]
    rfl

theorem sortedKeys_encode (r : Registered) : sortedKeys (Registered.encode r) = true := by
  obtain ⟨iss, sub, aud, e, nb, ia, jti⟩ := r
  cases iss <;> cases sub <;> cases aud <;> cases e <;> cases nb <;> cases ia <;>
    cases jti <;> rfl

theorem mem_encode_reserved {kv : String × Json} {r : Registered}
    (h : kv ∈ Registered.encode r) : reservedKey kv.1 = true := by
  rw [Registered.encode] at h
  simp only [List.mem_append] at h
  rcases h with ((((((h | h) | h) | h) | h) | h) | h) <;> rw [mem_optEntry h] <;> rfl

theorem filter_res_encode (r : Registered) :
    (Registered.encode r).filter (fun kv => reservedKey kv.1) = Registered.encode r := by
  rw [List.filter_eq_self]
  exact fun kv hkv => mem_encode_reserved hkv

theorem filter_notres_encode (r : Registered) :
    (Registered.encode r).filter (fun kv => !reservedKey kv.1) = [] := by
  rw [List.filter_eq_nil_iff]
  intro kv hkv
  simp [mem_encode_reserved hkv]

theorem decode_encode {r : Registered} (hv : r.valid = true) :
    Registered.decode (Registered.encode r) = .ok r := by
  rw [Registered.valid, Bool.and_eq_true, Bool.and_eq_true] at hv
  obtain ⟨⟨hexp, hnbf⟩, hiat⟩ := hv
  have hbexp : ∀ n, r.exp = some n → n < 2 ^ 64 := by
    intro n hn
    rw [hn] at hexp
    simpa using hexp
  have hbnbf : ∀ n, r.nbf = some n → n < 2 ^ 64 := by
    intro n hn
    rw [hn] at hnbf
    simpa using hnbf
  have hbiat : ∀ n, r.iat = some n → n < 2 ^ 64 := by
    intro n hn
    rw [hn] at hiat
    simpa using hiat
  rw [Registered.decode,
    decodeOptStr_of_map_str (lookup_encode_iss r),
    decodeOptStr_of_map_str (lookup_encode_sub r),
    decodeOptStr_of_map_str (lookup_encode_aud r),
    decodeOptU64_of_map_num hbexp (lookup_encode_exp r),
    decodeOptU64_of_map_num hbnbf (lookup_encode_nbf r),
    decodeOptU64_of_map_num hbiat (lookup_encode_iat r),
    decodeOptStr_of_map_str (lookup_encode_jti r)]
  rfl

end Jwt

namespace Jwt

/-! Unfolding and inversion lemmas for the codec. -/

theorem from_base64_obj (tree : List (String × Json)) :
    Claims.from_base64 (.json (.obj tree)) =
      match Registered.decode (tree.filter fun kv => reservedKey kv.1) with
      | .ok reg => .ok ⟨reg, tree.filter fun kv => !reservedKey kv.1⟩
      | .error e => .error e := by
  rw [Claims.from_base64, List.partition_eq_filter_filter]
  rfl

theorem from_base64_ok_inv {tree : List (String × Json)} {c : Claims}
    (h : Claims.from_base64 (.json (.obj tree)) = .ok c) :
    Registered.decode (tree.filter fun kv => reservedKey kv.1) = .ok c.reg ∧
      c.private' = tree.filter fun kv => !reservedKey kv.1 := by
  rw [from_base64_obj] at h
  rcases hd : Registered.decode (tree.filter fun kv => reservedKey kv.1) with e | reg
  · rw [hd] at h
    simp at h
  · rw [hd] at h
    simp only [Except.ok.injEq] at h
    rw [← h]
    exact ⟨rfl, rfl⟩

theorem decodeOptStr_error {t : List (String × Json)} {k : String} {e : Error}
    (h : decodeOptStr t k = .error e) : e = .decode := by
  rw [decodeOptStr] at h
  split at h <;> simp_all

theorem decodeOptU64_error {t : List (String × Json)} {k : String} {e : Error}
    (h : decodeOptU64 t k = .error e) : e = .decode := by
  rw [decodeOptU64] at h
  split at h <;> try simp_all
  rw [u64OfRat] at h
  split at h <;> simp_all [Except.map]

theorem decode_fields_of_ok {t : List (String × Json)} {r : Registered}
    (h : Registered.decode t = .ok r) :
    decodeOptStr t "iss" = .ok r.iss ∧ decodeOptStr t "sub" = .ok r.sub ∧
      decodeOptStr t "aud" = .ok r.aud ∧ decodeOptU64 t "exp" = .ok r.exp ∧
      decodeOptU64 t "nbf" = .ok r.nbf ∧ decodeOptU64 t "iat" = .ok r.iat ∧
      decodeOptStr t "jti" = .ok r.jti := by
  rw [Registered.decode] at h
  rcases h₁ : decodeOptStr t "iss" with e | iss <;> rw [h₁] at h <;>
    [simp [Except.bind] at h; skip]
  rcases h₂ : decodeOptStr t "sub" with e | sub <;> rw [h₂] at h <;>
    [simp [Except.bind] at h; skip]
  rcases h₃ : decodeOptStr t "aud" with e | aud <;> rw [h₃] at h <;>
    [simp [Except.bind] at h; skip]
  rcases h₄ : decodeOptU64 t "exp" with e | exp <;> rw [h₄] at h <;>
    [simp [Except.bind] at h; skip]
  rcases h₅ : decodeOptU64 t "nbf" with e | nbf <;> rw [h₅] at h <;>
    [simp [Except.bind] at h; skip]
  rcases h₆ : decodeOptU64 t "iat" with e | iat <;> rw [h₆] at h <;>
    [simp [Except.bind] at h; skip]
  rcases h₇ : decodeOptStr t "jti" with e | jti <;> rw [h₇] at h <;>
    [simp [Except.bind] at h; skip]
  simp only [Except.bind, Except.ok.injEq] at h
  rw [← h]
  exact ⟨rfl, rfl, rfl, rfl, rfl, rfl, rfl⟩

theorem decode_error_eq {t : List (String × Json)} {e : Error}
    (h : Registered.decode t = .error e) : e = .decode := by
  rw [Registered.decode] at h
  rcases h₁ : decodeOptStr t "iss" with e₁ | iss <;> rw [h₁] at h <;>
    [(simp [Except.bind] at h; rw [← h]; exact decodeOptStr_error h₁); skip]
  rcases h₂ : decodeOptStr t "sub" with e₂ | sub <;> rw [h₂] at h <;>
    [(simp [Except.bind] at h; rw [← h]; exact decodeOptStr_error h₂); skip]
  rcases h₃ : decodeOptStr t "aud" with e₃ | aud <;> rw [h₃] at h <;>
    [(simp [Except.bind] at h; rw [← h]; exact decodeOptStr_error h₃); skip]
  rcases h₄ : decodeOptU64 t "exp" with e₄ | exp <;> rw [h₄] at h <;>
    [(simp [Except.bind] at h; rw [← h]; exact decodeOptU64_error h₄); skip]
  rcases h₅ : decodeOptU64 t "nbf" with e₅ | nbf <;> rw [h₅] at h <;>
    [(simp [Except.bind] at h; rw [← h]; exact decodeOptU64_error h₅); skip]
  rcases h₆ : decodeOptU64 t "iat" with e₆ | iat <;> rw [h₆] at h <;>
    [(simp [Except.bind] at h; rw [← h]; exact decodeOptU64_error h₆); skip]
  rcases h₇ : decodeOptStr t "jti" with e₇ | jti <;> rw [h₇] at h <;>
    [(simp [Except.bind] at h; rw [← h]; exact decodeOptStr_error h₇); skip]
  simp [Except.bind] at h

end Jwt

namespace Jwt

theorem lookup_filter_pos {pred : String → Bool} {k : String}
    (t : List (String × Json)) (hk : pred k = true) :
    lookupKV k (t.filter fun kv => pred kv.1) = lookupKV k t := by
  induction t with
  | nil => rfl
  | cons hd tl ih =>
    obtain ⟨k', v'⟩ := hd
    rw [List.filter_cons]
    by_cases hk' : k = k'
    · subst hk'
      rw [if_pos (by simpa using hk), lookupKV, if_pos rfl, lookupKV, if_pos rfl]
    · rw [lookupKV, if_neg hk']
      split
      · rw [lookupKV, if_neg hk']
        exact ih
      · exact ih

theorem decodeOptU64_str {t : List (String × Json)} {k : String} {s : String}
    (h : lookupKV k t = some (.str s)) : decodeOptU64 t k = .error .decode := by
  simp [decodeOptU64, h]

theorem decodeOptU64_num_bad {t : List (String × Json)} {k : String} {q : ℚ}
    (h : lookupKV k t = some (.num q))
    (hq : ¬(q.den = 1 ∧ 0 ≤ q.num ∧ q.num < 2 ^ 64)) :
    decodeOptU64 t k = .error .decode := by
  simp only [decodeOptU64, h]
  rw [u64OfRat, if_neg hq]
  rfl

theorem decodeOptU64_num_good {t : List (String × Json)} {k : String} {q : ℚ}
    (h : lookupKV k t = some (.num q))
    (hq : q.den = 1 ∧ 0 ≤ q.num ∧ q.num < 2 ^ 64) :
    decodeOptU64 t k = .ok (some q.num.toNat) := by
  simp only [decodeOptU64, h]
  rw [u64OfRat, if_pos hq]
  rfl

/-- If the typed decode of one `u64` reserved field fails, the whole
`from_base64` call fails with `DecodeError` (whatever the other fields do). -/
theorem from_base64_decode_error_of_u64 {tree : List (String × Json)} {k : String}
    (hres : reservedKey k = true)
    (he : decodeOptU64 (tree.filter fun kv => reservedKey kv.1) k = .error .decode)
    (hk : k = "exp" ∨ k = "nbf" ∨ k = "iat") :
    Claims.from_base64 (.json (.obj tree)) = .error .decode := by
  rw [from_base64_obj]
  rcases hd : Registered.decode (tree.filter fun kv => reservedKey kv.1) with e | reg
  · rw [decode_error_eq hd]
  · have hf := decode_fields_of_ok hd
    rcases hk with hk | hk | hk <;> subst hk
    · rw [hf.2.2.2.1] at he
      cases he
    · rw [hf.2.2.2.2.1] at he
      cases he
    · rw [hf.2.2.2.2.2.1] at he
      cases he

end Jwt

namespace Jwt

theorem decodeOptStr_none {t : List (String × Json)} {k : String}
    (h : lookupKV k t = none) : decodeOptStr t k = .ok none := by
  simp [decodeOptStr, h]

theorem decodeOptU64_none {t : List (String × Json)} {k : String}
    (h : lookupKV k t = none) : decodeOptU64 t k = .ok none := by
  simp [decodeOptU64, h]

theorem lookup_none_of_not_reserved {p : List (String × Json)} {k : String}
    (hres : reservedKey k = true) (hne : ∀ kv ∈ p, reservedKey kv.1 = false) :
    lookupKV k p = none := by
  apply lookup_eq_none_of_ne
  intro kv hkv he
  rw [he, hne kv hkv] at hres
  cases hres

theorem lookup_some_mem {k : String} {v : Json} {t : List (String × Json)}
    (h : lookupKV k t = some v) : (k, v) ∈ t := by
  induction t with
  | nil => cases h
  | cons hd tl ih =>
    obtain ⟨k', v'⟩ := hd
    rw [lookupKV] at h
    split at h
    · rename_i he
      subst he
      simp only [Option.some.injEq] at h
      rw [h]
      exact List.mem_cons_self _ _
    · exact List.mem_cons_of_mem _ (ih h)

theorem reservedKey_false_not_mem {k : String} (h : reservedKey k = false) :
    k ∉ FIELDS := by
  intro hmem
  rw [reservedKey] at h
  have : FIELDS.any (fun f => f == k) = true := List.any_of_mem hmem (by simp)
  rw [h] at this
  cases this

end Jwt

namespace Jwt

/-! Claim theorems. -/

/-- C7: an input whose base64 layer is invalid, and an input whose decoded
bytes are not valid UTF-8, both make `Claims::from_base64` fail with an
`EncodingError`, returning no partial claim set. -/
theorem from_base64_encoding_error :
    Claims.from_base64 .invalidBase64 = .error .encoding ∧
    Claims.from_base64 .invalidUtf8 = .error .encoding :=
  ⟨rfl, rfl⟩

/-- C8: decoding the text for
`{"iss":"mikkyang.com","exp":1302319100,"name":"Michael Yang","admin":true}`
(whose parsed `BTreeMap` lists keys in order `admin, exp, iss, name`) succeeds
with `iss = Some("mikkyang.com")`, `exp = Some(1302319100)` and private map
exactly `{"admin": true, "name": "Michael Yang"}`. -/
theorem from_base64_concrete :
    Claims.from_base64 (.json (.obj
      [("admin", .boolean true), ("exp", .num 1302319100),
       ("iss", .str "mikkyang.com"), ("name", .str "Michael Yang")])) =
    .ok { reg := ⟨some "mikkyang.com", none, none, some 1302319100, none, none, none⟩,
          private' := [("admin", .boolean true), ("name", .str "Michael Yang")] } := by
  rfl

/-- C9: `Claims::new(reg)` returns the claim set with registered struct `reg`
and an empty private map; the operation is total (no failure mode). -/
theorem new_exact (r : Registered) :
    Claims.new r = { reg := r, private' := [] } :=
  rfl

/-- Witness for C9 at the default registered struct. -/
theorem new_exact_witness :
    Claims.new Registered.default = { reg := Registered.default, private' := [] } :=
  new_exact Registered.default

/-- C6: any successfully parsed input whose top-level JSON value is not an
object (array, string, number, boolean or null) is rejected by
`Claims::from_base64` with a `FormatError`. -/
theorem non_object_rejected (j : Json) (h : ∀ tree, j ≠ .obj tree) :
    Claims.from_base64 (.json j) = .error .format := by
  cases j with
  | obj tree => exact absurd rfl (h tree)
  | null => rfl
  | boolean b => rfl
  | num q => rfl
  | str s => rfl
  | arr xs => rfl

/-- Witness for C6 at the concrete non-object top level `[]` (a JSON array). -/
theorem non_object_rejected_witness :
    Claims.from_base64 (.json (.arr [])) = .error .format :=
  non_object_rejected (.arr []) fun _ h => Json.noConfusion h

/-- C4: if the input object maps `exp` to a JSON string, `Claims::from_base64`
fails with the `DecodeError` coming from the typed decode of the registered
group. -/
theorem exp_string_rejected (tree : List (String × Json)) (s : String)
    (h : lookupKV "exp" tree = some (.str s)) :
    Claims.from_base64 (.json (.obj tree)) = .error .decode := by
  apply from_base64_decode_error_of_u64 (k := "exp") rfl ?_ (Or.inl rfl)
  apply decodeOptU64_str
  rw [lookup_filter_pos tree rfl]
  exact h

/-- Witness for C4 at the concrete object `{"exp": "late"}`. -/
theorem exp_string_rejected_witness :
    Claims.from_base64 (.json (.obj [("exp", .str "late")])) = .error .decode :=
  exp_string_rejected [("exp", .str "late")] "late" rfl

end Jwt

namespace Jwt

/-- C1: for every valid claim set (u64 fields in range, private map a
well-formed `BTreeMap` avoiding the reserved keys), decoding the text
produced by encoding gives back exactly the same claim set:
`Claims::from_base64(Claims::to_base64(c)) == Ok(c)`. -/
theorem roundtrip (c : Claims) (hv : c.valid = true) :
    (Claims.to_base64 c).bind Claims.from_base64 = .ok c := by
  rw [Claims.valid, Bool.and_eq_true, Bool.and_eq_true, List.all_eq_true] at hv
  obtain ⟨⟨hreg, hsort⟩, hpriv⟩ := hv
  have hne : ∀ kv ∈ c.private', reservedKey kv.1 = false := by
    intro kv hkv
    simpa using hpriv kv hkv
  rw [Claims.to_base64]
  show Claims.from_base64 (.json (.obj (mergedTree c))) = .ok c
  rw [from_base64_obj]
  have hreg_filter :
      (mergedTree c).filter (fun kv => reservedKey kv.1) = Registered.encode c.reg := by
    rw [mergedTree, filter_extend_neg _ hne, filter_res_encode]
  have hpri_filter :
      (mergedTree c).filter (fun kv => !reservedKey kv.1) = c.private' := by
    rw [mergedTree, filter_extend_pos (f := fun y => !reservedKey y) hpriv (sortedKeys_encode c.reg),
      filter_notres_encode, extend_nil_left hsort]
  rw [hreg_filter, hpri_filter, decode_encode hreg]

/-- Witness for C1 at the repository's own round-trip test value
(`iss = "mikkyang.com"`, `exp = 1302319100`, empty private map). -/
theorem roundtrip_witness :
    Claims.valid { reg := ⟨some "mikkyang.com", none, none, some 1302319100,
                           none, none, none⟩,
                   private' := [] } = true ∧
    (Claims.to_base64 { reg := ⟨some "mikkyang.com", none, none, some 1302319100,
                               none, none, none⟩,
                        private' := [] }).bind Claims.from_base64 =
      .ok { reg := ⟨some "mikkyang.com", none, none, some 1302319100,
                    none, none, none⟩,
            private' := [] } :=
  ⟨by decide, roundtrip _ (by decide)⟩

end Jwt

namespace Jwt

/-- C2: absence preservation.  First half: for a claim set whose private map
is well-formed and avoids the reserved keys, every absent registered field's
key is missing from the JSON object emitted by `Claims::to_base64`.  Second
half: for every successfully decoded object, a reserved key missing from the
input leaves the corresponding field `None`. -/
theorem absence_preservation :
    (∀ c : Claims, sortedKeys c.private' = true →
      (∀ kv ∈ c.private', reservedKey kv.1 = false) →
      (c.reg.iss = none → lookupKV "iss" (mergedTree c) = none) ∧
      (c.reg.sub = none → lookupKV "sub" (mergedTree c) = none) ∧
      (c.reg.aud = none → lookupKV "aud" (mergedTree c) = none) ∧
      (c.reg.exp = none → lookupKV "exp" (mergedTree c) = none) ∧
      (c.reg.nbf = none → lookupKV "nbf" (mergedTree c) = none) ∧
      (c.reg.iat = none → lookupKV "iat" (mergedTree c) = none) ∧
      (c.reg.jti = none → lookupKV "jti" (mergedTree c) = none)) ∧
    (∀ (tree : List (String × Json)) (c : Claims),
      Claims.from_base64 (.json (.obj tree)) = .ok c →
      (lookupKV "iss" tree = none → c.reg.iss = none) ∧
      (lookupKV "sub" tree = none → c.reg.sub = none) ∧
      (lookupKV "aud" tree = none → c.reg.aud = none) ∧
      (lookupKV "exp" tree = none → c.reg.exp = none) ∧
      (lookupKV "nbf" tree = none → c.reg.nbf = none) ∧
      (lookupKV "iat" tree = none → c.reg.iat = none) ∧
      (lookupKV "jti" tree = none → c.reg.jti = none)) := by
  constructor
  · intro c hsort hne
    refine ⟨?_, ?_, ?_, ?_, ?_, ?_, ?_⟩ <;> intro hf <;>
      rw [mergedTree, lookup_extend _ hsort]
    · rw [lookup_none_of_not_reserved (k := "iss") rfl hne, lookup_encode_iss, hf]; rfl
    · rw [lookup_none_of_not_reserved (k := "sub") rfl hne, lookup_encode_sub, hf]; rfl
    · rw [lookup_none_of_not_reserved (k := "aud") rfl hne, lookup_encode_aud, hf]; rfl
    · rw [lookup_none_of_not_reserved (k := "exp") rfl hne, lookup_encode_exp, hf]; rfl
    · rw [lookup_none_of_not_reserved (k := "nbf") rfl hne, lookup_encode_nbf, hf]; rfl
    · rw [lookup_none_of_not_reserved (k := "iat") rfl hne, lookup_encode_iat, hf]; rfl
    · rw [lookup_none_of_not_reserved (k := "jti") rfl hne, lookup_encode_jti, hf]; rfl
  · intro tree c h
    obtain ⟨hdec, _⟩ := from_base64_ok_inv h
    have hf := decode_fields_of_ok hdec
    have htr : ∀ k : String, reservedKey k = true → lookupKV k tree = none →
        lookupKV k (tree.filter fun kv => reservedKey kv.1) = none := by
      intro k hres hl
      rw [lookup_filter_pos tree hres]
      exact hl
    refine ⟨?_, ?_, ?_, ?_, ?_, ?_, ?_⟩ <;> intro hl
    · simpa using (hf.1.symm.trans (decodeOptStr_none (htr _ rfl hl)))
    · simpa using (hf.2.1.symm.trans (decodeOptStr_none (htr _ rfl hl)))
    · simpa using (hf.2.2.1.symm.trans (decodeOptStr_none (htr _ rfl hl)))
    · simpa using (hf.2.2.2.1.symm.trans (decodeOptU64_none (htr _ rfl hl)))
    · simpa using (hf.2.2.2.2.1.symm.trans (decodeOptU64_none (htr _ rfl hl)))
    · simpa using (hf.2.2.2.2.2.1.symm.trans (decodeOptU64_none (htr _ rfl hl)))
    · simpa using (hf.2.2.2.2.2.2.symm.trans (decodeOptStr_none (htr _ rfl hl)))

/-- Witness for C2: a default claim set emits no `exp` key, and decoding the
object `{"name": "x"}` (no reserved keys) leaves `exp` absent. -/
theorem absence_preservation_witness :
    lookupKV "exp" (mergedTree { reg := Registered.default, private' := [] }) = none ∧
    ({ reg := Registered.default, private' := [("name", Json.str "x")] } : Claims).reg.exp
      = none := by
  constructor
  · exact (absence_preservation.1 { reg := Registered.default, private' := [] }
      rfl (by simp)).2.2.2.1 rfl
  · exact (absence_preservation.2 [("name", .str "x")]
      { reg := Registered.default, private' := [("name", Json.str "x")] }
      (by rfl)).2.2.2.1 rfl

end Jwt

namespace Jwt

/-- C3: after any successful decode, the private map contains no reserved key,
and every pair of the input object lands in exactly one of the registered
group (`partition`'s first component, i.e. the reserved-key filter) and the
private map. -/
theorem partition_disjointness (tree : List (String × Json)) (c : Claims)
    (h : Claims.from_base64 (.json (.obj tree)) = .ok c) :
    (∀ kv ∈ c.private', reservedKey kv.1 = false ∧ kv.1 ∉ FIELDS) ∧
    (∀ kv ∈ tree,
      (reservedKey kv.1 = true ∧ kv ∈ tree.filter (fun kv => reservedKey kv.1) ∧
        kv ∉ c.private') ∨
      (reservedKey kv.1 = false ∧ kv ∈ c.private' ∧
        kv ∉ tree.filter fun kv => reservedKey kv.1)) := by
  obtain ⟨-, hpriv⟩ := from_base64_ok_inv h
  constructor
  · intro kv hkv
    rw [hpriv, List.mem_filter] at hkv
    have hres : reservedKey kv.1 = false := by simpa using hkv.2
    exact ⟨hres, reservedKey_false_not_mem hres⟩
  · intro kv hkv
    rcases hres : reservedKey kv.1 with hf | ht
    · right
      refine ⟨rfl, ?_, ?_⟩
      · rw [hpriv, List.mem_filter]
        exact ⟨hkv, by simp [hres]⟩
      · rw [List.mem_filter]
        rintro ⟨-, hcontra⟩
        rw [hres] at hcontra
        cases hcontra
    · left
      refine ⟨rfl, ?_, ?_⟩
      · rw [List.mem_filter]
        exact ⟨hkv, hres⟩
      · rw [hpriv, List.mem_filter]
        rintro ⟨-, hcontra⟩
        rw [hres] at hcontra
        cases hcontra

/-- Witness for C3 at the concrete object `{"iss": "a", "x": null}`: the key
`"x"` of the resulting private map is not reserved. -/
theorem partition_disjointness_witness :
    reservedKey "x" = false ∧ "x" ∉ FIELDS :=
  (partition_disjointness [("iss", .str "a"), ("x", .null)]
    { reg := ⟨some "a", none, none, none, none, none, none⟩,
      private' := [("x", Json.null)] } (by rfl)).1
    ("x", Json.null) (by simp)

end Jwt

namespace Jwt

/-- C5: for each numeric reserved claim (`exp`, `nbf`, `iat`) present as a
JSON number, a value that is fractional, negative or out of `u64` range makes
`Claims::from_base64` fail with `DecodeError`, while a non-negative in-range
integer decodes to exactly that `u64` in the corresponding field of any
successful result. -/
theorem numeric_claims (tree : List (String × Json)) (k : String) (q : ℚ)
    (hk : k = "exp" ∨ k = "nbf" ∨ k = "iat")
    (h : lookupKV k tree = some (.num q)) :
    (¬(q.den = 1 ∧ 0 ≤ q.num ∧ q.num < 2 ^ 64) →
      Claims.from_base64 (.json (.obj tree)) = .error .decode) ∧
    ((q.den = 1 ∧ 0 ≤ q.num ∧ q.num < 2 ^ 64) →
      ∀ c, Claims.from_base64 (.json (.obj tree)) = .ok c →
        (k = "exp" → c.reg.exp = some q.num.toNat) ∧
        (k = "nbf" → c.reg.nbf = some q.num.toNat) ∧
        (k = "iat" → c.reg.iat = some q.num.toNat)) := by
  have hres : reservedKey k = true := by
    rcases hk with hk | hk | hk <;> subst hk <;> rfl
  have hlf : lookupKV k (tree.filter fun kv => reservedKey kv.1) = some (.num q) := by
    rw [lookup_filter_pos tree hres]
    exact h
  constructor
  · intro hbad
    exact from_base64_decode_error_of_u64 hres (decodeOptU64_num_bad hlf hbad) hk
  · intro hgood c hok
    obtain ⟨hdec, -⟩ := from_base64_ok_inv hok
    have hf := decode_fields_of_ok hdec
    have hu := decodeOptU64_num_good hlf hgood
    refine ⟨?_, ?_, ?_⟩ <;> intro hkeq <;> subst hkeq
    · simpa using (hf.2.2.2.1.symm.trans hu)
    · simpa using (hf.2.2.2.2.1.symm.trans hu)
    · simpa using (hf.2.2.2.2.2.1.symm.trans hu)

/-- Witness for C5: `{"exp": -1}` is rejected with `DecodeError`, and in
`{"nbf": 3}` the value decodes to `3`. -/
theorem numeric_claims_witness :
    Claims.from_base64 (.json (.obj [("exp", .num (-1))])) = .error .decode ∧
    ({ reg := ⟨none, none, none, none, some 3, none, none⟩, private' := [] } : Claims).reg.nbf
      = some 3 := by
  constructor
  · exact (numeric_claims [("exp", .num (-1))] "exp" (-1) (.inl rfl) rfl).1 (by decide)
  · exact ((numeric_claims [("nbf", .num 3)] "nbf" 3 (.inr (.inl rfl)) rfl).2 (by decide)
      { reg := ⟨none, none, none, none, some 3, none, none⟩, private' := [] }
      (by rfl)).2.1 rfl

end Jwt

namespace Jwt

/-- C10: `Claims::to_base64` merges the private map into the
registered-derived object with `extend`: the emitted object is the merged
tree, any key present in the private map keeps the private value (overwriting
a registered-derived entry if one exists), and under key-disjointness the
emitted object is exactly the union of the two maps. -/
theorem to_base64_extend_merge (c : Claims) (hs : sortedKeys c.private' = true) :
    Claims.to_base64 c = .ok (.json (.obj (mergedTree c))) ∧
    (∀ k v, lookupKV k c.private' = some v → lookupKV k (mergedTree c) = some v) ∧
    ((∀ kv ∈ c.private', lookupKV kv.1 (Registered.encode c.reg) = none) →
      ∀ k, lookupKV k (mergedTree c) =
        (lookupKV k (Registered.encode c.reg)).or (lookupKV k c.private')) := by
  refine ⟨rfl, ?_, ?_⟩
  · intro k v hv
    rw [mergedTree, lookup_extend _ hs, hv]
    rfl
  · intro hdisj k
    rw [mergedTree, lookup_extend _ hs]
    rcases hp : lookupKV k c.private' with _ | v
    · rw [option_or_none]
      rfl
    · rw [hdisj (k, v) (lookup_some_mem hp)]
      rfl

/-- Witness for C10: with registered `iss = "a"` and a colliding private entry
`"iss" ↦ "b"`, the private value wins in the emitted object. -/
theorem to_base64_extend_merge_witness :
    lookupKV "iss" (mergedTree { reg := ⟨some "a", none, none, none, none, none, none⟩,
                                 private' := [("iss", Json.str "b")] }) =
      some (Json.str "b") :=
  (to_base64_extend_merge
    { reg := ⟨some "a", none, none, none, none, none, none⟩,
      private' := [("iss", Json.str "b")] } rfl).2.1 "iss" (Json.str "b") rfl

end Jwt
